import Mathlib

/-!
Verification of the utility-class composition and conflict-resolution engine
(the `cn()` merge utility and the declarative variant builder) described by the
repository's specification.  The repository itself contains the `cn` wrapper
(`cn(...inputs) = twMerge(clsx(inputs))`) and its call sites; the bodies of the
tokenizer (`clsx`), the merge resolver (`twMerge`) and the variant resolver
(`cva`) live in third-party packages outside the repository, so they are
modelled here from the specification's component design (§4) and data model (§3).
-/

namespace Cn

/-! ## Tokenizer (§4.1) -/

/-- Whitespace splitter: accumulates the current token (reversed) and emits it
at each whitespace boundary, dropping empty segments. -/
def splitAux : List Char → List Char → List String
  | [], acc => if acc = [] then [] else [String.mk acc.reverse]
  | c :: cs, acc =>
    if c.isWhitespace then
      (if acc = [] then splitAux cs [] else String.mk acc.reverse :: splitAux cs [])
    else splitAux cs (c :: acc)

/-- Split a string segment on whitespace into its non-empty tokens. -/
def splitTokens (s : String) : List String := splitAux s.data []

/-- Join a token sequence with single spaces. -/
def joinTokens : List String → String
  | [] => ""
  | [t] => t
  | t :: ts => t ++ " " ++ joinTokens ts

/-- Modelled from the spec: the class-list argument grammar accepted by the
tokenizer (§4.1) — plain strings, falsy values (`false`/`null`/`undefined`;
the empty string is `str ""`), nested sequences, and maps from token-string
to boolean.  This is the `ClassValue` type of the `clsx` dependency, which is
not part of the repository sources. -/
inductive ClassValue where
  | str (s : String)
  | falsy
  | arr (xs : List ClassValue)
  | map (entries : List (String × Bool))

/-- Modelled from the spec: the tokenizer (§4.1, the flattening stage of
`clsx`, whose body is not in the repository sources).  Recursively flattens
the nested input into a single ordered sequence of non-empty tokens, skipping
falsy values, splitting strings on whitespace, and including a map key iff
its value is truthy. -/
def tokenize : ClassValue → List String
  | ClassValue.str s => splitTokens s
  | ClassValue.falsy => []
  | ClassValue.arr [] => []
  | ClassValue.arr (x :: xs) => tokenize x ++ tokenize (ClassValue.arr xs)
  | ClassValue.map [] => []
  | ClassValue.map (e :: es) =>
    (if e.2 then splitTokens e.1 else []) ++ tokenize (ClassValue.map es)

/-- A top-level argument is falsy when it is `falsy` (false/null/undefined)
or the empty string. -/
def isFalsy : ClassValue → Bool
  | ClassValue.falsy => true
  | ClassValue.str s => s == ""
  | _ => false

/-! ## Conflict Classifier (§4.2) -/

/-- Split on the modifier separator `:`, keeping empty segments. -/
def splitColonAux : List Char → List Char → List String
  | [], acc => [String.mk acc.reverse]
  | c :: cs, acc =>
    if c = ':' then String.mk acc.reverse :: splitColonAux cs []
    else splitColonAux cs (c :: acc)

/-- Split a raw token on the modifier separator. -/
def splitColon (t : String) : List String := splitColonAux t.data []

/-- Rejoin segments with the modifier separator. -/
def joinColon : List String → String
  | [] => ""
  | [s] => s
  | s :: ss => s ++ ":" ++ joinColon ss

/-- Modelled from the spec: the recognized modifier keywords (§4.2 step 1) —
responsive breakpoints, pseudo-state names and color-scheme markers. -/
def knownModifiers : List String :=
  ["sm", "md", "lg", "xl", "2xl",
   "hover", "focus", "focus-within", "focus-visible", "active", "visited",
   "disabled", "first", "last", "odd", "even",
   "dark", "light", "group-hover", "peer-hover", "motion-safe", "motion-reduce"]

/-- An arbitrary-variant bracket segment `[...]` (§4.2 step 1). -/
def isArbitraryVariant (s : String) : Bool :=
  match s.data with
  | '[' :: rest => rest.getLast? == some ']'
  | _ => false

/-- A segment is consumed into the modifier chain iff it is a recognized
modifier keyword or an arbitrary-variant bracket segment. -/
def isModifierSeg (s : String) : Bool :=
  knownModifiers.contains s || isArbitraryVariant s

/-- Modelled from the spec: consume recognized modifier segments left to right
as a prefix chain; the first unrecognized segment and everything after it
(and in every case the final segment) is the base spelling (§4.2 step 1). -/
def splitMods : List String → List String × String
  | [] => ([], "")
  | [s] => ([], s)
  | s :: ss =>
    if isModifierSeg s then
      let r := splitMods ss
      (s :: r.1, r.2)
    else ([], joinColon (s :: ss))

/-- Strip a leading important marker `!` from the base spelling, recording the
flag separately (§4.2 step 2). -/
def stripImportant (s : String) : Bool × String :=
  match s.data with
  | '!' :: rest => (true, String.mk rest)
  | _ => (false, s)

/-- The parsed modifier chain of a raw token. -/
def modsOf (t : String) : List String := (splitMods (splitColon t)).1

/-- The parsed base spelling of a raw token (important marker stripped). -/
def baseOf (t : String) : String := (stripImportant (splitMods (splitColon t)).2).2

/-- The important-flag of a raw token. -/
def impOf (t : String) : Bool := (stripImportant (splitMods (splitColon t)).2).1

/-- One classification rule: a literal base-spelling pattern matched as a
leading pattern, the ConflictGroup id it assigns, and the set of other group
ids a token of this group also overrides (§3, §4.2 steps 3 and 5). -/
structure Rule where
  pat : String
  group : String
  subsumes : List String

/-- `isPrefixList p s` decides whether `p` is a leading segment of `s`. -/
def isPrefixList : List Char → List Char → Bool
  | [], _ => true
  | _ :: _, [] => false
  | a :: as, b :: bs => a == b && isPrefixList as bs

/-- `strStarts p s` decides whether the string `s` starts with `p`. -/
def strStarts (p s : String) : Bool := isPrefixList p.data s.data

/-- Modelled from the spec: the priority-ordered rule table (§4.2 step 3,
most specific pattern first; §9 data-driven table of matcher/group/subsumes).
Includes the spec's named example groups: the all-sides padding and margin
groups subsume their horizontal and vertical sub-groups (§4.2 step 5), the
display family, and the text-color family. -/
def ruleTable : List Rule :=
  [⟨"px-", "padding-x", []⟩,
   ⟨"py-", "padding-y", []⟩,
   ⟨"p-", "padding-all", ["padding-x", "padding-y"]⟩,
   ⟨"mx-", "margin-x", []⟩,
   ⟨"my-", "margin-y", []⟩,
   ⟨"m-", "margin-all", ["margin-x", "margin-y"]⟩,
   ⟨"text-", "text-color", []⟩,
   ⟨"bg-", "background-color", []⟩,
   ⟨"fg-", "foreground-color", []⟩,
   ⟨"h-", "height", []⟩,
   ⟨"w-", "width", []⟩,
   ⟨"rounded", "border-radius", []⟩,
   ⟨"inline-flex", "display", []⟩,
   ⟨"block", "display", []⟩,
   ⟨"flex", "display", []⟩,
   ⟨"grid", "display", []⟩,
   ⟨"hidden", "display", []⟩]

/-- The first (highest-priority) rule whose pattern matches the base spelling. -/
def findRule (base : String) : Option Rule :=
  ruleTable.find? (fun r => strStarts r.pat base)

/-- A ConflictGroup id: either a group declared in the rule table, or the
synthesized singleton group of an unrecognized token, keyed by its literal
text (§4.2 step 4) — synthesized groups are distinct from every declared
group, so an unknown token dedupes only against itself (§3 invariants). -/
inductive ConflictGroup where
  | declared (id : String)
  | singleton (text : String)
deriving DecidableEq

/-- A classified token: its raw text, modifier chain, ConflictGroup, the set
of declared groups it subsumes, and its important-flag (§4.2). -/
structure Classified where
  raw : String
  mods : List String
  group : ConflictGroup
  subsumes : List String
  impFlag : Bool
deriving DecidableEq

/-- Modelled from the spec: the conflict classifier (§4.2) — parse the
modifier chain and base spelling, strip the important marker, match the rule
table, and fall back to the literal-text singleton group when no rule
matches.  Total over any string input. -/
def classifyToken (t : String) : Classified :=
  match findRule (baseOf t) with
  | some r => ⟨t, modsOf t, ConflictGroup.declared r.group, r.subsumes, impOf t⟩
  | none => ⟨t, modsOf t, ConflictGroup.singleton t, [], impOf t⟩

/-! ## Merge Resolver (§4.3) -/

/-- `overridden later earlier` holds when the `later` token clears the
`earlier` one: identical modifier chains and either the same ConflictGroup or
a declared group that the later token subsumes (§3 GroupKey, §4.3).  The
important-flag plays no part (§4.3 edge cases). -/
def overridden (later earlier : Classified) : Bool :=
  decide (later.mods = earlier.mods) &&
    (decide (later.group = earlier.group) ||
      (match earlier.group with
       | ConflictGroup.declared g => later.subsumes.contains g
       | ConflictGroup.singleton _ => false))

/-- One step of the merge resolver: drop every earlier token the incoming one
overrides, then append the incoming token at its own position (§4.3). -/
def mergeStep (acc : List Classified) (c : Classified) : List Classified :=
  acc.filter (fun e => !(overridden c e)) ++ [c]

/-- Modelled from the spec: the merge resolver over an already-tokenized
sequence (§4.3) — process left to right, later tokens removing earlier ones
of the same or a subsumed GroupKey, survivors keeping their own original
relative positions. -/
def mergeTokens (ts : List String) : List String :=
  ((ts.map classifyToken).foldl mergeStep []).map (fun c => c.raw)

/-- Modelled from the spec: the merge operation on a class string — the
`twMerge` dependency, whose body is not in the repository sources (§4.3,
§6): tokenize, resolve conflicts, re-join. -/
def merge (s : String) : String := joinTokens (mergeTokens (splitTokens s))

/-- The `twMerge` entry point of the source's `cn` wrapper. -/
def twMerge (s : String) : String := merge s

/-- Modelled from the spec: the `clsx` entry point — flatten the nested
arguments (§4.1) and join the resulting tokens. -/
def clsx (inputs : List ClassValue) : String :=
  joinTokens (tokenize (ClassValue.arr inputs))

/-- The `cn` utility as defined in the Tailwind/shadcn document
(`lib/utils.ts`): `cn(...inputs) = twMerge(clsx(inputs))`. -/
def cn (inputs : List ClassValue) : String := twMerge (clsx inputs)

/-- The `cn` utility as defined in the code-conventions document
(`lib/utils.ts` there as well): `cn(...inputs) = twMerge(clsx(inputs))`. -/
def cnCodeConventions (inputs : List ClassValue) : String := twMerge (clsx inputs)

/-! ## Variant Resolver (§4.4) -/

/-- An axis of a variant schema: its name, its ordered named options (each
mapping to a token list), and the name of its default option (§3). -/
structure Axis where
  name : String
  options : List (String × List String)
  dflt : String

/-- A compound variant: a list of required (axis, option) choices plus the
token list appended when all of them hold (§3). -/
structure CompoundVariant where
  pat : List (String × String)
  tokens : List String

/-- A variant schema: base token list, ordered axes, compound variants (§3). -/
structure VariantSchema where
  base : List String
  axes : List Axis
  compounds : List CompoundVariant

/-- A variant selection: explicit axis choices plus the literal override
token list applied last (§3). -/
structure VariantSelection where
  choices : List (String × String)
  override : List String

/-- Modelled from the spec: the error raised by the variant resolver (§7) —
always includes the offending name(s) and, for options, the valid set. -/
inductive ConfigurationError where
  | unknownAxis (axis : String)
  | unknownOption (axis : String) (opt : String) (valid : List String)
deriving DecidableEq

/-- The selection's explicit choice for an axis name, if any. -/
def lookupChoice (choices : List (String × String)) (a : String) : Option String :=
  match choices.find? (fun p => p.1 == a) with
  | some p => some p.2
  | none => none

/-- The token list of a named option on an axis, if that option is declared. -/
def findOption (ax : Axis) (o : String) : Option (List String) :=
  match ax.options.find? (fun p => p.1 == o) with
  | some p => some p.2
  | none => none

/-- Modelled from the spec: the per-axis step of the variant resolver (§4.4
step 2) — take the selection's explicit choice, else the axis default; an
explicit choice naming an undeclared option fails with a ConfigurationError
carrying the axis, the option and the valid option names. -/
def axisTokens (sel : List (String × String)) (ax : Axis) :
    Except ConfigurationError (List String) :=
  match lookupChoice sel ax.name with
  | some o =>
    match findOption ax o with
    | some ts => Except.ok ts
    | none =>
      Except.error (ConfigurationError.unknownOption ax.name o (ax.options.map (fun p => p.1)))
  | none => Except.ok ((findOption ax ax.dflt).getD [])

/-- Append the chosen option's token list for each axis in schema-declaration
order, propagating the first failure (§4.4 step 2). -/
def resolveAxes (sel : List (String × String)) : List Axis → Except ConfigurationError (List String)
  | [] => Except.ok []
  | ax :: rest =>
    match axisTokens sel ax with
    | Except.error e => Except.error e
    | Except.ok ts =>
      match resolveAxes sel rest with
      | Except.error e => Except.error e
      | Except.ok ts' => Except.ok (ts ++ ts')

/-- Fail with a ConfigurationError naming the axis when the selection names
an axis not declared in the schema (§4.4, §7). -/
def checkAxes (axes : List Axis) (sel : List (String × String)) :
    Except ConfigurationError Unit :=
  match sel.find? (fun p => !(axes.any (fun ax => ax.name == p.1))) with
  | some p => Except.error (ConfigurationError.unknownAxis p.1)
  | none => Except.ok ()

/-- The resolved choice of an axis: the explicit selection, else the default. -/
def chosenOf (sel : List (String × String)) (ax : Axis) : String :=
  (lookupChoice sel ax.name).getD ax.dflt

/-- A compound variant matches when each of its required (axis, option)
choices is among the resolved per-axis choices (§4.4 step 3). -/
def compoundMatches (resolved : List (String × String)) (cv : CompoundVariant) : Bool :=
  cv.pat.all (fun p => resolved.contains p)

/-- Concatenate the token lists of the given compound variants. -/
def compoundTokens : List CompoundVariant → List String
  | [] => []
  | cv :: cvs => cv.tokens ++ compoundTokens cvs

/-- Modelled from the spec: the variant resolver (§4.4) — base list, then for
each axis in schema-declaration order the chosen option's token list, then
matching compound variants, then the selection's literal override list last;
fails with a ConfigurationError on an unknown axis or unknown option. -/
def resolve (schema : VariantSchema) (sel : VariantSelection) :
    Except ConfigurationError (List String) :=
  match checkAxes schema.axes sel.choices with
  | Except.error e => Except.error e
  | Except.ok _ =>
    match resolveAxes sel.choices schema.axes with
    | Except.error e => Except.error e
    | Except.ok axTs =>
      let resolved := schema.axes.map (fun ax => (ax.name, chosenOf sel.choices ax))
      Except.ok (schema.base ++ axTs ++
        compoundTokens (schema.compounds.filter (compoundMatches resolved)) ++ sel.override)

/-- The schema of the specification's §8 variant-resolution example: axis
`intent` with options `default` and `danger` (default `default`) and axis
`size` with options `sm` and `lg` (default `sm`); empty base, no compounds. -/
def exampleSchema : VariantSchema :=
  ⟨[],
   [⟨"intent", [("default", ["bg-a", "fg-a"]), ("danger", ["bg-b", "fg-b"])], "default"⟩,
    ⟨"size", [("sm", ["h-1"]), ("lg", ["h-2"])], "sm"⟩],
   []⟩

/-- A merged output carries no internal conflict: no later survivor overrides
an earlier one. -/
def NoOv (l : List Classified) : Prop :=
  l.Pairwise (fun a b => overridden b a = false)

/-! ## Lemmas about the merge resolver -/

/-- The classifier records the raw token text unchanged. -/
theorem raw_classifyToken (t : String) : (classifyToken t).raw = t := by
  unfold classifyToken
  split <;> rfl

theorem noOv_mergeStep {acc : List Classified} (h : NoOv acc) (c : Classified) :
    NoOv (mergeStep acc c) := by
  unfold mergeStep NoOv
  rw [List.pairwise_append]
  refine ⟨h.filter _, List.pairwise_singleton _ _, ?_⟩
  intro a ha b hb
  rcases List.mem_singleton.1 hb with rfl
  have := (List.mem_filter.1 ha).2
  simpa using this

theorem noOv_foldl (l : List Classified) :
    ∀ acc, NoOv acc → NoOv (List.foldl mergeStep acc l) := by
  induction l with
  | nil => intro acc h; simpa using h
  | cons c l ih =>
    intro acc h
    exact ih _ (noOv_mergeStep h c)

theorem foldl_noOv_stable (l : List Classified) :
    ∀ acc, NoOv (acc ++ l) → List.foldl mergeStep acc l = acc ++ l := by
  induction l with
  | nil => intro acc _; simp
  | cons c l ih =>
    intro acc h
    have h' := h
    unfold NoOv at h'
    rw [List.pairwise_append] at h'
    obtain ⟨h1, h2, h3⟩ := h'
    have hstep : mergeStep acc c = acc ++ [c] := by
      unfold mergeStep
      congr 1
      apply List.filter_eq_self.2
      intro a ha
      simpa using h3 a ha c (by simp)
    have hrest : NoOv ((acc ++ [c]) ++ l) := by
      have e : (acc ++ [c]) ++ l = acc ++ c :: l := by simp
      rw [e]; exact h
    calc List.foldl mergeStep acc (c :: l)
        = List.foldl mergeStep (mergeStep acc c) l := rfl
      _ = List.foldl mergeStep (acc ++ [c]) l := by rw [hstep]
      _ = (acc ++ [c]) ++ l := ih _ hrest
      _ = acc ++ c :: l := by simp

theorem mem_foldl_subset (l : List Classified) :
    ∀ acc c, c ∈ List.foldl mergeStep acc l → c ∈ acc ∨ c ∈ l := by
  induction l with
  | nil => intro acc c h; exact Or.inl h
  | cons x l ih =>
    intro acc c h
    rcases ih _ _ h with h' | h'
    · unfold mergeStep at h'
      rcases List.mem_append.1 h' with h'' | h''
      · exact Or.inl (List.mem_filter.1 h'').1
      · rcases List.mem_singleton.1 h'' with rfl
        exact Or.inr (by simp)
    · exact Or.inr (by simp [h'])

/-- A token already in the accumulator that no later token overrides survives
the rest of the merge. -/
theorem mem_foldl_of_not_ov (l : List Classified) :
    ∀ acc c, c ∈ acc → (∀ d ∈ l, overridden d c = false) → c ∈ List.foldl mergeStep acc l := by
  induction l with
  | nil => intro acc c h _; exact h
  | cons d l ih =>
    intro acc c h hno
    refine ih _ _ ?_ (fun e he => hno e (by simp [he]))
    unfold mergeStep
    refine List.mem_append.2 (Or.inl ?_)
    refine List.mem_filter.2 ⟨h, ?_⟩
    simp [hno d (by simp)]

/-- C1: in the merge over already-tokenized input, a later all-sides token
clears the earlier axis-specific tokens of the groups it subsumes
(`merge "px-2 py-2 p-4" = "p-4"`), but the subsumption relation is directed:
a later horizontal-group token does not clear an earlier all-sides token
(`merge "p-4 px-2" = "p-4 px-2"`), and survivors keep their own original
relative positions. -/
theorem claim1_subsumption_directed :
    merge "px-2 py-2 p-4" = "p-4" ∧ merge "p-4 px-2" = "p-4 px-2" :=
  ⟨rfl, rfl⟩

/-- C2: the merge operation is idempotent on every token sequence:
`mergeTokens (mergeTokens ts) = mergeTokens ts`. -/
theorem claim2_merge_idempotent (ts : List String) :
    mergeTokens (mergeTokens ts) = mergeTokens ts := by
  unfold mergeTokens
  have h1 : NoOv (List.foldl mergeStep [] (ts.map classifyToken)) :=
    noOv_foldl _ [] (by simp [NoOv])
  have h2 : ∀ c ∈ List.foldl mergeStep [] (ts.map classifyToken),
      classifyToken c.raw = c := by
    intro c hc
    rcases mem_foldl_subset _ _ _ hc with h | h
    · simp at h
    · rcases List.mem_map.1 h with ⟨t, _, rfl⟩
      rw [raw_classifyToken]
  have h3 : (List.map (fun c => c.raw) (List.foldl mergeStep [] (ts.map classifyToken))).map
      classifyToken = List.foldl mergeStep [] (ts.map classifyToken) := by
    rw [List.map_map]
    conv_rhs => rw [← List.map_id (List.foldl mergeStep [] (ts.map classifyToken))]
    exact List.map_congr_left fun c hc => h2 c hc
  rw [h3]
  rw [foldl_noOv_stable _ [] (by simpa using h1)]
  simp

theorem claim2_merge_idempotent_witness :
    mergeTokens (mergeTokens ["p-2", "p-4"]) = mergeTokens ["p-2", "p-4"] :=
  claim2_merge_idempotent ["p-2", "p-4"]

/-- C4: two tokens of the same ConflictGroup under the same modifier chain
whose important-flags differ still conflict in the merge, and the later one
wins — importance never exempts a token from conflict resolution. -/
theorem claim4_important_same_group (t1 t2 : String)
    (_himp : (classifyToken t1).impFlag ≠ (classifyToken t2).impFlag)
    (hmods : (classifyToken t1).mods = (classifyToken t2).mods)
    (hgroup : (classifyToken t1).group = (classifyToken t2).group) :
    mergeTokens [t1, t2] = [t2] := by
  have hov : overridden (classifyToken t2) (classifyToken t1) = true := by
    unfold overridden
    simp [hmods, hgroup]
  unfold mergeTokens mergeStep
  simp [hov, raw_classifyToken]

theorem claim4_important_same_group_witness : mergeTokens ["!p-2", "p-4"] = ["p-4"] :=
  claim4_important_same_group "!p-2" "p-4" (by decide) (by decide) (by decide)

/-- C5: tokens whose modifier chains differ never conflict in the merge, even
with identical base spellings; concretely,
`merge "text-red-500 hover:text-red-500 text-blue-500"` keeps the
hover-qualified token and resolves only the unprefixed pair. -/
theorem claim5_modifier_independence :
    (∀ t1 t2 : String, (classifyToken t1).mods ≠ (classifyToken t2).mods →
      overridden (classifyToken t2) (classifyToken t1) = false) ∧
    merge "text-red-500 hover:text-red-500 text-blue-500" =
      "hover:text-red-500 text-blue-500" := by
  constructor
  · intro t1 t2 h
    have h' : (classifyToken t2).mods ≠ (classifyToken t1).mods := fun e => h e.symm
    simp [overridden, h']
  · rfl

theorem claim5_modifier_independence_witness :
    overridden (classifyToken "hover:p-2") (classifyToken "p-2") = false :=
  claim5_modifier_independence.1 "p-2" "hover:p-2" (by decide)

/-- A token later in the sequence that is not byte-identical to an earlier
unrecognized token never overrides it: the synthesized singleton group of an
unknown token matches only its own literal text and is never subsumed. -/
theorem ov_singleton_ne {t u : String} (ht : findRule (baseOf t) = none) (hne : u ≠ t) :
    overridden (classifyToken u) (classifyToken t) = false := by
  have hgt : (classifyToken t).group = ConflictGroup.singleton t := by
    unfold classifyToken
    rw [ht]
  have hgu : (classifyToken u).group ≠ ConflictGroup.singleton t := by
    unfold classifyToken
    cases hf : findRule (baseOf u) with
    | some r => simp
    | none => simpa using hne
  unfold overridden
  rw [hgt]
  simp [hgu]

/-- C6: the merge preserves each unrecognized token unless a byte-identical
token occurs later; two distinct unrecognized tokens both survive, and two
identical unrecognized tokens collapse to one occurrence. -/
theorem claim6_unknown_preservation :
    (∀ (pre post : List String) (t : String), findRule (baseOf t) = none →
      t ∉ post → t ∈ mergeTokens (pre ++ t :: post)) ∧
    (∀ t1 t2 : String, findRule (baseOf t1) = none → findRule (baseOf t2) = none →
      t1 ≠ t2 → mergeTokens [t1, t2] = [t1, t2]) ∧
    (∀ t : String, findRule (baseOf t) = none → mergeTokens [t, t] = [t]) := by
  refine ⟨?_, ?_, ?_⟩
  · intro pre post t ht hpost
    unfold mergeTokens
    rw [List.map_append, List.foldl_append, List.map_cons, List.foldl_cons]
    apply List.mem_map.2
    refine ⟨classifyToken t, ?_, raw_classifyToken t⟩
    apply mem_foldl_of_not_ov
    · unfold mergeStep
      simp
    · intro d hd
      rcases List.mem_map.1 hd with ⟨u, hu, rfl⟩
      exact ov_singleton_ne ht (fun e => hpost (e ▸ hu))
  · intro t1 t2 h1 h2 hne
    have hov : overridden (classifyToken t2) (classifyToken t1) = false :=
      ov_singleton_ne h1 (fun e => hne e.symm)
    unfold mergeTokens mergeStep
    simp [hov, raw_classifyToken]
  · intro t ht
    have hov : overridden (classifyToken t) (classifyToken t) = true := by
      unfold overridden
      simp
    unfold mergeTokens mergeStep
    simp [hov, raw_classifyToken]

theorem claim6_unknown_preservation_witness :
    "foo" ∈ mergeTokens (["p-2"] ++ "foo" :: ["bar"]) :=
  claim6_unknown_preservation.1 ["p-2"] ["bar"] "foo" rfl (by decide)

/-- A nonempty character list makes a nonempty string. -/
theorem mk_ne_empty {l : List Char} (h : l ≠ []) : String.mk l ≠ "" := by
  intro he
  exact h (congrArg String.data he)

/-- Every token emitted by the whitespace splitter is non-empty. -/
theorem splitAux_ne (cs : List Char) : ∀ (acc : List Char) (t : String),
    t ∈ splitAux cs acc → t ≠ "" := by
  induction cs with
  | nil =>
    intro acc t h
    unfold splitAux at h
    split at h
    · simp at h
    · rcases List.mem_singleton.1 h with rfl
      rename_i hacc
      exact mk_ne_empty (by simpa using hacc)
  | cons c cs ih =>
    intro acc t h
    unfold splitAux at h
    split at h
    · split at h
      · exact ih [] t h
      · rcases List.mem_cons.1 h with rfl | h'
        · rename_i hacc
          exact mk_ne_empty (by simpa using hacc)
        · exact ih [] t h'
    · exact ih (c :: acc) t h

/-- Every token produced by the tokenizer is non-empty. -/
theorem tokenize_ne (v : ClassValue) : ∀ t ∈ tokenize v, t ≠ "" := by
  induction v using tokenize.induct with
  | case1 s =>
    intro t h
    rw [tokenize] at h
    exact splitAux_ne _ _ t h
  | case2 =>
    intro t h
    rw [tokenize] at h
    simp at h
  | case3 =>
    intro t h
    rw [tokenize] at h
    simp at h
  | case4 x xs ih1 ih2 =>
    intro t h
    rw [tokenize] at h
    rcases List.mem_append.1 h with h' | h'
    · exact ih1 t h'
    · exact ih2 t h'
  | case5 =>
    intro t h
    rw [tokenize] at h
    simp at h
  | case6 e es ih =>
    intro t h
    rw [tokenize] at h
    rcases List.mem_append.1 h with h' | h'
    · split at h'
      · exact splitAux_ne _ _ t h'
      · simp at h'
    · exact ih t h'

/-- C7: the tokenizer is total and order-preserving — a string argument
contributes its whitespace-split tokens, a falsy argument contributes
nothing, a nested sequence contributes its elements' tokens in left-to-right
encounter order, a map contributes each key's tokens iff its value is truthy
(in entry order), and every produced token is non-empty. -/
theorem claim7_tokenizer_total_ordered :
    (∀ s, tokenize (ClassValue.str s) = splitTokens s) ∧
    tokenize ClassValue.falsy = [] ∧
    tokenize (ClassValue.arr []) = [] ∧
    (∀ x xs, tokenize (ClassValue.arr (x :: xs)) = tokenize x ++ tokenize (ClassValue.arr xs)) ∧
    tokenize (ClassValue.map []) = [] ∧
    (∀ k b es, tokenize (ClassValue.map ((k, b) :: es)) =
      (if b then splitTokens k else []) ++ tokenize (ClassValue.map es)) ∧
    (∀ v, ∀ t ∈ tokenize v, t ≠ "") :=
  ⟨fun s => by rw [tokenize], by rw [tokenize], by rw [tokenize],
   fun x xs => by rw [tokenize], by rw [tokenize],
   fun k b es => by rw [tokenize], tokenize_ne⟩

theorem claim7_tokenizer_total_ordered_witness : ("a" : String) ≠ "" :=
  claim7_tokenizer_total_ordered.2.2.2.2.2.2 (ClassValue.str "a b") "a"
    (by rw [tokenize]; decide)

/-! ## Lemmas about the variant resolver -/

theorem checkAxes_ok {axes : List Axis} {choices : List (String × String)}
    (h : checkAxes axes choices = Except.ok ()) :
    ∀ p ∈ choices, axes.any (fun ax => ax.name == p.1) = true := by
  intro p hp
  unfold checkAxes at h
  cases hf : List.find? (fun p => !(axes.any (fun ax => ax.name == p.1))) choices with
  | some q => rw [hf] at h; exact Except.noConfusion h
  | none =>
    have := List.find?_eq_none.1 hf p hp
    simpa using this

theorem resolveAxes_ok {sel : List (String × String)} :
    ∀ {axes : List Axis} {ts : List String}, resolveAxes sel axes = Except.ok ts →
      ∀ ax ∈ axes, ∃ ts', axisTokens sel ax = Except.ok ts' := by
  intro axes
  induction axes with
  | nil =>
    intro ts _ ax hax
    simp at hax
  | cons a rest ih =>
    intro ts h ax hax
    unfold resolveAxes at h
    cases h1 : axisTokens sel a with
    | error e => rw [h1] at h; exact Except.noConfusion h
    | ok ts1 =>
      rw [h1] at h
      cases h2 : resolveAxes sel rest with
      | error e => rw [h2] at h; exact Except.noConfusion h
      | ok ts2 =>
        rcases List.mem_cons.1 hax with rfl | hax'
        · exact ⟨ts1, h1⟩
        · exact ih h2 ax hax'

theorem axisTokens_ok_valid {sel : List (String × String)} {ax : Axis} {ts : List String}
    {o : String} (h : axisTokens sel ax = Except.ok ts)
    (hl : lookupChoice sel ax.name = some o) : (findOption ax o).isSome = true := by
  unfold axisTokens at h
  simp only [hl] at h
  cases hf : findOption ax o with
  | some l => simp [hf]
  | none =>
    simp only [hf] at h
    exact Except.noConfusion h

theorem lookupChoice_mem {choices : List (String × String)} {a o : String}
    (h : lookupChoice choices a = some o) : ∃ p ∈ choices, p.1 = a ∧ p.2 = o := by
  unfold lookupChoice at h
  cases hf : List.find? (fun p => p.1 == a) choices with
  | none => rw [hf] at h; exact Option.noConfusion h
  | some p =>
    rw [hf] at h
    refine ⟨p, List.mem_of_find?_eq_some hf, ?_, ?_⟩
    · simpa using List.find?_some hf
    · exact Option.some.inj h

/-- C3: a resolution that succeeds can only have selected declared axes and
declared options — so a selection naming an unknown axis or an unknown option
fails with a ConfigurationError; concretely, `{intent: "bogus"}` against the
§8 schema fails with an error naming axis `intent`, option `bogus` and the
valid options `default, danger`, rather than being silently ignored. -/
theorem claim3_resolve_unknown_option :
    (∀ (schema : VariantSchema) (sel : VariantSelection) (ts : List String) (a o : String),
      resolve schema sel = Except.ok ts → lookupChoice sel.choices a = some o →
      ∃ ax ∈ schema.axes, ax.name = a ∧ (findOption ax o).isSome = true) ∧
    resolve exampleSchema ⟨[("intent", "bogus")], []⟩ =
      Except.error (ConfigurationError.unknownOption "intent" "bogus" ["default", "danger"]) := by
  constructor
  · intro schema sel ts a o hres hl
    unfold resolve at hres
    cases hc : checkAxes schema.axes sel.choices with
    | error e => rw [hc] at hres; exact Except.noConfusion hres
    | ok u =>
      rw [hc] at hres
      cases hra : resolveAxes sel.choices schema.axes with
      | error e => rw [hra] at hres; exact Except.noConfusion hres
      | ok axTs =>
        obtain ⟨p, hp, hpa, hpo⟩ := lookupChoice_mem hl
        cases u
        have hany := checkAxes_ok hc p hp
        rw [List.any_eq_true] at hany
        obtain ⟨ax, hax, hnm⟩ := hany
        have hnm' : ax.name = p.1 := by simpa using hnm
        obtain ⟨ts', hts'⟩ := resolveAxes_ok hra ax hax
        have hl' : lookupChoice sel.choices ax.name = some o := by
          rw [hnm', hpa]
          exact hl
        exact ⟨ax, hax, by rw [hnm', hpa], axisTokens_ok_valid hts' hl'⟩
  · rfl

theorem claim3_resolve_unknown_option_witness :
    ∃ ax ∈ exampleSchema.axes, ax.name = "intent" ∧ (findOption ax "danger").isSome = true :=
  claim3_resolve_unknown_option.1 exampleSchema ⟨[("intent", "danger")], []⟩
    ["bg-b", "fg-b", "h-1"] "intent" "danger" rfl rfl

/-- C8: variant resolution appends in a fixed order — the schema's base list
first and the selection's literal override list last, with the per-axis and
compound lists in between; concretely, `{intent: "danger"}` against the §8
schema yields `["bg-b", "fg-b", "h-1"]` (explicit `danger` tokens, then the
`size` default `sm` tokens), tokens equivalent to `merge "bg-b fg-b h-1"`. -/
theorem claim8_resolve_append_order :
    (∀ (schema : VariantSchema) (sel : VariantSelection) (ts : List String),
      resolve schema sel = Except.ok ts →
      ∃ mid, ts = schema.base ++ mid ++ sel.override) ∧
    resolve exampleSchema ⟨[("intent", "danger")], []⟩ = Except.ok ["bg-b", "fg-b", "h-1"] ∧
    mergeTokens ["bg-b", "fg-b", "h-1"] = mergeTokens (splitTokens "bg-b fg-b h-1") := by
  refine ⟨?_, rfl, rfl⟩
  intro schema sel ts hres
  unfold resolve at hres
  cases hc : checkAxes schema.axes sel.choices with
  | error e => rw [hc] at hres; exact Except.noConfusion hres
  | ok u =>
    rw [hc] at hres
    cases hra : resolveAxes sel.choices schema.axes with
    | error e => rw [hra] at hres; exact Except.noConfusion hres
    | ok axTs =>
      rw [hra] at hres
      simp only [Except.ok.injEq] at hres
      refine ⟨axTs ++ compoundTokens (schema.compounds.filter
        (compoundMatches (schema.axes.map (fun ax => (ax.name, chosenOf sel.choices ax))))), ?_⟩
      rw [← hres]
      simp [List.append_assoc]

theorem claim8_resolve_append_order_witness :
    ∃ mid, ["bg-b", "fg-b", "h-1"] =
      exampleSchema.base ++ mid ++ (VariantSelection.mk [("intent", "danger")] []).override :=
  claim8_resolve_append_order.1 exampleSchema ⟨[("intent", "danger")], []⟩
    ["bg-b", "fg-b", "h-1"] rfl

/-! ## Lemmas about the composition entry point -/

/-- A falsy argument contributes no tokens. -/
theorem falsy_tokenize {v : ClassValue} (h : isFalsy v = true) : tokenize v = [] := by
  cases v with
  | falsy => rw [tokenize]
  | str s =>
    have hs : s = "" := by simpa [isFalsy] using h
    subst hs
    rw [tokenize]
    rfl
  | arr xs => simp [isFalsy] at h
  | map es => simp [isFalsy] at h

theorem all_falsy_tokenize : ∀ (inputs : List ClassValue),
    (∀ v ∈ inputs, isFalsy v = true) → tokenize (ClassValue.arr inputs) = [] := by
  intro inputs
  induction inputs with
  | nil =>
    intro _
    rw [tokenize]
  | cons v vs ih =>
    intro h
    rw [tokenize, falsy_tokenize (h v (by simp)), ih (fun u hu => h u (by simp [hu]))]
    rfl

/-- C9: the composition entry point returns the empty string when called with
no arguments or with arguments that are all falsy, rather than failing or
returning whitespace. -/
theorem claim9_cn_empty :
    cn [] = "" ∧ ∀ inputs, (∀ v ∈ inputs, isFalsy v = true) → cn inputs = "" := by
  have hbase : ∀ inputs, tokenize (ClassValue.arr inputs) = [] → cn inputs = "" := by
    intro inputs h
    unfold cn twMerge clsx merge
    rw [h]
    rfl
  refine ⟨hbase [] (by rw [tokenize]), fun inputs h => hbase inputs (all_falsy_tokenize inputs h)⟩

theorem claim9_cn_empty_witness : cn [ClassValue.falsy, ClassValue.str ""] = "" := by
  apply claim9_cn_empty.2 [ClassValue.falsy, ClassValue.str ""]
  intro v hv
  rcases List.mem_cons.1 hv with rfl | hv'
  · rfl
  · rcases List.mem_cons.1 hv' with rfl | hv''
    · rfl
    · simp at hv''

/-- C10: the `cn` function of the code-conventions document and the `cn`
function of the Tailwind/shadcn document are extensionally equal — the two
sources define byte-identical wrappers `twMerge(clsx(inputs))`. -/
theorem claim10_cn_defs_equal (inputs : List ClassValue) :
    cn inputs = cnCodeConventions inputs := rfl

theorem claim10_cn_defs_equal_witness :
    cn [ClassValue.str "p-2 p-4"] = cnCodeConventions [ClassValue.str "p-2 p-4"] :=
  claim10_cn_defs_equal [ClassValue.str "p-2 p-4"]

end Cn
